import Mathlib

/-!
Verification of the quant-trading-skill search core against its design
specification.

The development shallowly embeds the two Go packages that carry the
algorithmic content:

* `internal/bm25/bm25.go` — tokenization, BM25 index construction (`Fit`)
  and scoring (`Score`);
* `internal/search/search.go` — domain configuration tables, keyword-based
  domain auto-detection (`DetectDomain`), CSV loading (`loadCSV`) and the
  search pipeline (`Search`).

Modelling conventions:

* Go `float64` arithmetic is idealized as arithmetic in a linear ordered
  field `F`; the engine is parametrized by `F` and by a function
  `flog : F → F` standing for `math.Log`.  The program's instance is
  `F := ℝ`, `flog := Real.log`; structural theorems are stated for every
  instance (which includes the real one), numeric theorems about IDF signs
  and monotonicity are stated at the real instance.
* Go `map` values are modelled as functions (`String → Nat`,
  `String → Option F`, `String → Option String`): a Go map lookup
  `v, ok := m[k]` is a total-function application, key presence being
  `Option`-ness or positivity of a counter, and a map write is a pointwise
  functional update, so later writes to the same key win exactly as in Go.
* `sort.Slice(ranked, less)` with `less i j := ranked[i].Score > ranked[j].Score`
  is documented by Go to produce *some* reordering of the slice that is
  sorted under `less`, explicitly *not* guaranteed to be stable.  The
  embedding therefore takes the sorting routine as a parameter `sorter`
  constrained by exactly that contract (`SortSliceContract`): the result is
  a permutation of the input, pairwise sorted by non-increasing score.
* Iteration over a Go map (`for domain, score := range scores` in
  `DetectDomain`) visits the keys in an order that Go deliberately
  randomizes.  The embedding takes that visiting order as a parameter
  `order`, constrained to be a permutation of the configured domain names.
* The external CSV file system is a function `String → Option (List (List String))`
  from a path to the parsed rows of the file at that path (`none` = the
  file is absent or unreadable); `encoding/csv` itself is an external
  collaborator outside the core.
* A Go run-time panic is an outcome, not a return value; the one reachable
  panic site in this code (`make` with a negative capacity when
  `maxResults < 0`, `search.go` line 141) is modelled as the distinct
  outcome `SearchErr.sliceCapPanic`, so `Search` returns `.ok` exactly
  when the program returns a `Result`.
-/

/-! ## Tokenizer (`bm25.go`, `Tokenize`, lines 32–46) -/

/-- A word character of the re2 class `\w` (`[0-9A-Za-z_]`), the class used
by the pattern `[^\w\s]` in `Tokenize`. -/
def isWordChar (c : Char) : Bool :=
  ('a' ≤ c && c ≤ 'z') || ('A' ≤ c && c ≤ 'Z') || ('0' ≤ c && c ≤ '9') || c == '_'

/-- A whitespace character of the re2 class `\s` (`[\t\n\f\r ]`). -/
def isReSpace (c : Char) : Bool :=
  c == ' ' || c == '\t' || c == '\n' || c == '\r' || c == '\x0c'

/-- One step of `re.ReplaceAllString(text, " ")` for the pattern `[^\w\s]`:
every character that is neither a word character nor an re2 whitespace
character becomes a single space.  (The pattern matches single characters,
so the whole replacement is a character map.) -/
def replaceNonWord (l : List Char) : List Char :=
  l.map (fun c => if isWordChar c || isReSpace c then c else ' ')

/-- Accumulator loop for `strings.Fields`: `acc` holds the characters of
the current (unfinished) field in reverse; a whitespace character closes
the field, anything else extends it. -/
def goFieldsAux : List Char → List Char → List (List Char)
  | [], acc => if acc.isEmpty then [] else [acc.reverse]
  | c :: rest, acc =>
    if isReSpace c then
      if acc.isEmpty then goFieldsAux rest []
      else acc.reverse :: goFieldsAux rest []
    else goFieldsAux rest (c :: acc)

/-- `strings.Fields`: split around runs of whitespace, producing no empty
fields.  After `replaceNonWord` every character is a word character or a
member of the re2 `\s` class, and on that alphabet Go's `unicode.IsSpace`
coincides with `isReSpace`, so the split predicate is `isReSpace`. -/
def goFields (l : List Char) : List (List Char) := goFieldsAux l []

/-- `Tokenize` on a character list: lower-case, replace punctuation with
spaces, split on whitespace, keep only words of length `> 2`.  Go's
`strings.ToLower` restricted to ASCII is `Char.toLower`; characters outside
ASCII are erased to a space by `replaceNonWord` either way. -/
def tokenizeChars (l : List Char) : List (List Char) :=
  (goFields (replaceNonWord (l.map Char.toLower))).filter (fun w => 2 < w.length)

/-- `func (bm *BM25) Tokenize(text string) []string`: the token sequence of
a text.  Tokens contain only ASCII word characters, so Go's byte length
equals the character count. -/
def Tokenize (text : String) : List String :=
  (tokenizeChars text.toList).map (fun l => ⟨l⟩)

/-! ## BM25 engine (`bm25.go`, lines 10–121) -/

/-- The state of `type BM25 struct` over the idealized number type `F`. -/
structure BM25 (F : Type) where
  k1 : F
  b : F
  corpus : List (List String)
  docLengths : List Nat
  avgdl : F
  idf : String → Option F
  docFreqs : String → Nat
  N : Nat

/-- `func New(k1, b float64) *BM25`: a fresh engine; slices are nil, maps
empty, numeric fields at their zero values. -/
def BM25.new (F : Type) [LinearOrderedField F] (k1 b : F) : BM25 F :=
  ⟨k1, b, [], [], 0, fun _ => none, fun _ => 0, 0⟩

/-- The inner loop of `Fit`'s document-frequency pass: for one document,
`docFreqs[word]++` for the first occurrence of each word (the `seen` set
suppresses repeats within the document). -/
def addDocFreqs (df : String → Nat) (doc : List String) : String → Nat :=
  go doc [] df
where
  go : List String → List String → (String → Nat) → (String → Nat)
    | [], _, df => df
    | w :: rest, seen, df =>
      if w ∈ seen then go rest seen df
      else go rest (w :: seen) (fun x => if x = w then df w + 1 else df x)

/-- The smoothed IDF value `Fit` computes for a term with document
frequency `df` over `N` documents (`bm25.go` line 82):
`log((float64(N-freq)+0.5)/(float64(freq)+0.5) + 1.0)` — the subtraction
`N - freq` happens in Go `int` arithmetic, hence the `Int` cast. -/
def idfValue (F : Type) [LinearOrderedField F] (flog : F → F) (N df : Nat) : F :=
  flog (((((N : Int) - (df : Int) : Int) : F) + 1/2) / ((df : F) + 1/2) + 1)

/-- `func (bm *BM25) Fit(documents []string)`: sets `N`, and for a
non-empty collection rebuilds corpus, document lengths, `avgdl`, adds the
collection's document frequencies into `docFreqs`, and writes the smoothed
IDF `idfValue` for every key of `docFreqs`.  A key is present in the Go
map exactly when its counter is positive. -/
def BM25.fit {F : Type} [LinearOrderedField F] (flog : F → F)
    (bm : BM25 F) (documents : List String) : BM25 F :=
  let N := documents.length
  if N = 0 then { bm with N := 0 }
  else
    let corpus := documents.map Tokenize
    let docLengths := corpus.map List.length
    let totalLen := docLengths.sum
    let avgdl : F := (totalLen : F) / (N : F)
    let docFreqs := corpus.foldl addDocFreqs bm.docFreqs
    let idf : String → Option F := fun w =>
      if 0 < docFreqs w then some (idfValue F flog N (docFreqs w))
      else bm.idf w
    { k1 := bm.k1, b := bm.b, corpus := corpus, docLengths := docLengths,
      avgdl := avgdl, idf := idf, docFreqs := docFreqs, N := N }

/-- `type Result struct { Index int; Score float64 }` of package `bm25`. -/
structure GoResult (F : Type) where
  Index : Nat
  Score : F
deriving DecidableEq

/-- The BM25 contribution of one query token to one document
(`bm25.go` lines 110–113): `idf * (tf*(k1+1)) / (tf + k1*(1-b+b*docLen/avgdl))`. -/
def bm25Term {F : Type} [LinearOrderedField F]
    (k1 b idfv docLen avgdl tf : F) : F :=
  idfv * (tf * (k1 + 1)) / (tf + k1 * (1 - b + b * docLen / avgdl))

/-- One iteration of `Score`'s token loop (`bm25.go` lines 108–115): a
query token found in `idf` adds its `bm25Term` contribution with
`tf = termFreqs[token]` (the token's count in the document, 0 when
absent); an unknown token adds nothing. -/
def scoreStep {F : Type} [LinearOrderedField F] (bm : BM25 F)
    (doc : List String) (docLen : F) (acc : F) (token : String) : F :=
  match bm.idf token with
  | some idfv => acc + bm25Term bm.k1 bm.b idfv docLen bm.avgdl (doc.count token : F)
  | none => acc

/-- `func (bm *BM25) Score(query string) []Result`: one `Result` per corpus
document, in corpus order; the score sums `bm25Term` over the query tokens
found in `idf`, tokens absent from the fitted vocabulary contributing
nothing. -/
def BM25.score {F : Type} [LinearOrderedField F]
    (bm : BM25 F) (query : String) : List (GoResult F) :=
  let queryTokens := Tokenize query
  bm.corpus.enum.map (fun p =>
    ⟨p.1, queryTokens.foldl (scoreStep bm p.2 (bm.docLengths.getD p.1 0 : F)) 0⟩)

/-! ## Domain search service (`search.go`) -/

/-- `type Config struct` of package `search` (lines 15–19). -/
structure Config where
  file : String
  searchCols : List String
  outputCols : List String
deriving DecidableEq

/-- The static map `DomainConfigs` (lines 22–48), as a lookup function:
`none` models a missing key of the Go map. -/
def DomainConfigs : String → Option Config := fun d =>
  if d = "strategy" then some
    ⟨"strategies.csv",
     ["Strategy Name", "Category", "Keywords", "Best For", "Data Requirements"],
     ["Strategy Name", "Category", "Keywords", "Data Requirements", "Time Horizon",
      "Best For", "Complexity", "Key Parameters", "Performance Characteristics",
      "Market Conditions", "Capital Requirements", "Avoid For"]⟩
  else if d = "indicator" then some
    ⟨"indicators.csv",
     ["Indicator Name", "Category", "Keywords", "Best For"],
     ["Indicator Name", "Category", "Keywords", "Formula/Description", "Time-Domain",
      "Best For", "Parameters", "Interpretation", "Limitations", "Combine With",
      "Avoid For"]⟩
  else if d = "risk" then some
    ⟨"risk-management.csv",
     ["Risk Control", "Category", "Keywords", "Description", "Best For"],
     ["Risk Control", "Category", "Keywords", "Description", "Parameters", "Best For",
      "Implementation", "Advantages", "Disadvantages", "Critical For"]⟩
  else if d = "data" then some
    ⟨"data-sources.csv",
     ["Data Type", "Source", "Keywords", "Description", "Best For"],
     ["Data Type", "Source", "Keywords", "Description", "Format", "Frequency",
      "Best For", "Requirements", "Typical Cost"]⟩
  else if d = "anti-pattern" then some
    ⟨"anti-patterns.csv",
     ["Category", "Issue", "Keywords", "Description"],
     ["Category", "Issue", "Keywords", "Description", "Do", "Don't", "Severity",
      "Platform"]⟩
  else none

/-- The static map `DomainKeywords` (lines 51–57), as a lookup function
returning `[]` for names outside the table. -/
def DomainKeywords : String → List String := fun d =>
  if d = "strategy" then
    ["strategy", "trading", "algorithm", "arbitrage", "ofi", "hawkes", "kalman",
     "momentum", "mean-reversion", "pairs", "market-making", "statistical",
     "execution", "vwap", "ml", "backtest"]
  else if d = "indicator" then
    ["indicator", "ema", "sma", "rsi", "macd", "bollinger", "atr", "stochastic",
     "adx", "vwap", "obv", "tci", "signal", "oscillator", "moving average"]
  else if d = "risk" then
    ["risk", "position", "sizing", "kelly", "stop", "loss", "drawdown", "var",
     "cvar", "leverage", "margin", "hedge", "portfolio", "limit", "exposure"]
  else if d = "data" then
    ["data", "tick", "order book", "l2", "ohlcv", "bars", "futures", "options",
     "on-chain", "news", "sentiment", "fundamental", "volume", "feed", "api"]
  else if d = "anti-pattern" then
    ["mistake", "error", "avoid", "don't", "anti-pattern", "pitfall", "bias",
     "overfitting", "look-ahead", "survivorship", "slippage", "bug", "wrong"]
  else []

/-- The key set of both static maps, in source order. -/
def domainNames : List String :=
  ["strategy", "indicator", "risk", "data", "anti-pattern"]

/-- `needle` matches at the head of `hay` (helper for `strings.Contains`). -/
def matchesAt : List Char → List Char → Bool
  | [], _ => true
  | _ :: _, [] => false
  | a :: as, b :: bs => a == b && matchesAt as bs

/-- `strings.Contains(hay, needle)`: the needle occurs as a contiguous
substring of the hay. -/
def goContains (hay needle : List Char) : Bool :=
  match hay with
  | [] => matchesAt needle []
  | _ :: rest => matchesAt needle hay || goContains rest needle

/-- The keyword count of one domain in `DetectDomain`'s first loop
(lines 73–81): how many of the domain's trigger keywords occur in the
lower-cased query. -/
def keywordScore (queryLower : String) (d : String) : Nat :=
  (DomainKeywords d).countP (fun kw => goContains queryLower.toList kw.toList)

/-- `strings.ToLower` (ASCII, the only characters the keyword tables use). -/
def goToLower (s : String) : String := ⟨s.toList.map Char.toLower⟩

/-- The best-domain selection loop of `DetectDomain` (lines 83–91):
starting from `bestDomain := "strategy"`, `bestScore := 0`, take each
visited domain whose keyword count strictly beats the best so far.  The
loop ranges over the `scores` map, whose visiting order Go randomizes; the
embedding takes that order as the parameter `order` (a permutation of
`domainNames`). -/
def detectBest (order : List String) (queryLower : String) : String × Nat :=
  order.foldl
    (fun best d =>
      if keywordScore queryLower d > best.2 then (d, keywordScore queryLower d) else best)
    ("strategy", 0)

/-- `func DetectDomain(query string) string` (lines 69–97): lower-case the
query, count the trigger keywords of each domain occurring in it, pick the
best-scoring visited domain and fall back to `"strategy"` when every count
is zero. -/
def DetectDomain (order : List String) (query : String) : String :=
  if (detectBest order (goToLower query)).2 = 0 then "strategy"
  else (detectBest order (goToLower query)).1

/-- The non-`ok` outcomes of `Search`: an unknown explicit domain
(`fmt.Errorf("unknown domain: %s", domain)`), an unreadable record store
(`os.Open` error propagated by `loadCSV`), a structurally malformed
store (`fmt.Errorf("CSV file too short")`), and the run-time panic
`makeslice: cap out of range` raised by
`make([]map[string]string, 0, maxResults)` (line 141) when `maxResults`
is negative — the program crashes there rather than returning, and the
embedding folds that crash into the outcome type as its own
constructor. -/
inductive SearchErr where
  | unknownDomain (d : String)
  | sourceUnavailable
  | sourceMalformed
  | sliceCapPanic
deriving DecidableEq

/-- One parsed record: the Go `map[string]string` row as a lookup function
(key present ↦ `some` value). -/
def Row : Type := String → Option String

/-- The row map built by `loadCSV`'s inner loop (lines 191–198): for each
header position `i` with `i < len(record)`, `row[header] = record[i]`;
a later duplicate header overwrites an earlier one exactly as in Go. -/
def rowOf (headers record : List String) : Row :=
  headers.enum.foldl
    (fun row p =>
      if p.1 < record.length then
        fun k => if k = p.2 then some (record.getD p.1 "") else row k
      else row)
    (fun _ => none)

/-- `func loadCSV(filepath string)` (lines 170–202) over the external file
system `fs` (path ↦ parsed CSV rows, `none` = absent/unreadable): fails on
a missing file, fails with `CSV file too short` on fewer than two rows,
otherwise the first row is the header and each remaining row becomes a
`Row`. -/
def loadCSV (fs : String → Option (List (List String))) (path : String) :
    Except SearchErr (List Row) :=
  match fs path with
  | none => .error .sourceUnavailable
  | some records =>
    if records.length < 2 then .error .sourceMalformed
    else .ok ((records.tail).map (rowOf (records.headD [])))

/-- `type Result struct` of package `search` (lines 60–66); `Results`
elements are the projected Go maps, rendered as association lists in
output-column order (the columns of every configured schema are distinct,
so this is a faithful, order-canonical image of the Go map). -/
structure SearchResult where
  Domain : String
  Query : String
  File : String
  Count : Nat
  Results : List (List (String × String))
deriving DecidableEq

/-- `filepath.Join(dataDir, config.File)`, modelled as separator
concatenation (no claim depends on path cleaning). -/
def joinPath (dir file : String) : String := dir ++ "/" ++ file

/-- The synthetic documents of `Search` (lines 119–128): per record, the
values of the domain's search columns that are present, joined by single
spaces. -/
def docsOf (config : Config) (data : List Row) : List String :=
  data.map (fun row => String.intercalate " " (config.searchCols.filterMap row))

/-- The ranked scores `Search` computes (lines 131–133): a fresh engine
with `k1 = 1.5`, `b = 0.75`, fitted on the synthetic documents, scoring the
query. -/
def rankedFor (F : Type) [LinearOrderedField F] (flog : F → F)
    (config : Config) (data : List Row) (query : String) : List (GoResult F) :=
  (BM25.fit flog (BM25.new F (3/2) (3/4)) (docsOf config data)).score query

/-- The selection loop of `Search` (lines 141–148): walk the sorted ranking
keeping records until one scores `≤ 0` or `maxResults` records have been
kept; `cnt` is `len(results)` so far.  Both exits are `break`s, so the kept
records form a prefix of the sorted ranking. -/
def survivors {F : Type} [LinearOrderedField F] (maxResults : Int) :
    List (GoResult F) → Nat → List (GoResult F)
  | [], _ => []
  | r :: rest, cnt =>
    if r.Score ≤ 0 then []
    else if (cnt : Int) ≥ maxResults then []
    else r :: survivors maxResults rest (cnt + 1)

/-- The output projection of `Search` (lines 150–156): the output columns
present in the source row, in schema order. -/
def projectRow (config : Config) (row : Row) : List (String × String) :=
  config.outputCols.filterMap (fun col => (row col).map (fun v => (col, v)))

/-- The resolved domain of `Search` (lines 101–103): the explicit domain if
non-empty, else auto-detection. -/
def resolvedDomain (order : List String) (query domain : String) : String :=
  if domain = "" then DetectDomain order query else domain

/-- The documented contract of `sort.Slice(ranked, func(i, j) { return
ranked[i].Score > ranked[j].Score })`: the result is some permutation of
the input that is sorted under the comparator — i.e. pairwise
non-increasing in score.  Stability is explicitly *not* promised. -/
def SortSliceContract (F : Type) [LinearOrderedField F]
    (sorter : List (GoResult F) → List (GoResult F)) : Prop :=
  ∀ l, (sorter l).Perm l ∧ (sorter l).Pairwise (fun a b => b.Score ≤ a.Score)

/-- `func Search(dataDir, query, domain string, maxResults int)`
(lines 100–167): resolve the domain, load the record store, build the
synthetic documents, fit and score a fresh BM25 engine, sort by descending
score, keep positive-scoring records up to `maxResults`, and project them
through the domain's output columns.  After a successful load, line 141
allocates `results := make([]map[string]string, 0, maxResults)`: for a
negative `maxResults` Go panics there (`makeslice: cap out of range`)
before the selection loop, so the call never returns a `Result`;
the embedding renders that crash as `SearchErr.sliceCapPanic`. -/
def Search (F : Type) [LinearOrderedField F] (flog : F → F)
    (sorter : List (GoResult F) → List (GoResult F)) (order : List String)
    (fs : String → Option (List (List String)))
    (dataDir query domain : String) (maxResults : Int) :
    Except SearchErr SearchResult :=
  let d := resolvedDomain order query domain
  match DomainConfigs d with
  | none => .error (.unknownDomain d)
  | some config =>
    match loadCSV fs (joinPath dataDir config.file) with
    | .error e => .error e
    | .ok data =>
      if maxResults < 0 then .error .sliceCapPanic
      else
        let picked := survivors maxResults (sorter (rankedFor F flog config data query)) 0
        let results := picked.map (fun r => projectRow config (data.getD r.Index (fun _ => none)))
        .ok ⟨d, query, config.file, results.length, results⟩

/-! ## Tokenizer properties (claim C4) -/

lemma toNat_ofNat_valid (n : Nat) (h : n < 0xd800) : (Char.ofNat n).toNat = n := by
  have hv : n.isValidChar := Or.inl h
  rw [Char.ofNat, dif_pos hv]
  simp [Char.ofNatAux, Char.toNat, UInt32.toNat, BitVec.toNat_ofNatLt]

/-- `Char.toLower` never produces an ASCII upper-case letter. -/
lemma toLower_isUpper_false (c : Char) : (Char.toLower c).isUpper = false := by
  have hb : ∀ d : Char, d.isUpper = (decide (65 ≤ d.toNat) && decide (d.toNat ≤ 90)) := by
    intro d
    simp only [Char.isUpper, Char.toNat, ge_iff_le, UInt32.le_def, BitVec.le_def]
    rfl
  rw [Char.toLower]
  split
  · next h =>
    rw [hb]
    have : (Char.ofNat (c.toNat + 32)).toNat = c.toNat + 32 :=
      toNat_ofNat_valid _ (by omega)
    rw [this]
    simp
    omega
  · next h =>
    rw [hb]
    simp only [Bool.and_eq_false_iff, decide_eq_false_iff_not]
    omega

/-- Every field produced by the `goFieldsAux` loop is non-empty and
consists of non-whitespace characters drawn from the remaining input or
the pending accumulator. -/
lemma goFieldsAux_mem {l : List Char} :
    ∀ {acc w : List Char}, (∀ c ∈ acc, isReSpace c = false) →
    w ∈ goFieldsAux l acc →
    w ≠ [] ∧ ∀ c ∈ w, (c ∈ l ∨ c ∈ acc) ∧ isReSpace c = false := by
  induction l with
  | nil =>
    intro acc w hacc hw
    rw [goFieldsAux] at hw
    split at hw
    · cases hw
    · next hne =>
      rcases List.mem_singleton.mp hw with rfl
      refine ⟨by simpa [List.isEmpty_iff] using hne, ?_⟩
      intro c hc
      rw [List.mem_reverse] at hc
      exact ⟨Or.inr hc, hacc c hc⟩
  | cons a rest ih =>
    intro acc w hacc hw
    rw [goFieldsAux] at hw
    split at hw
    · next hsp =>
      split at hw
      · next hemp =>
        obtain ⟨hne, hall⟩ := ih (by simp) hw
        refine ⟨hne, fun c hc => ?_⟩
        obtain ⟨hm, hns⟩ := hall c hc
        rcases hm with h | h
        · exact ⟨Or.inl (List.mem_cons_of_mem _ h), hns⟩
        · cases h
      · next hemp =>
        rcases List.mem_cons.mp hw with rfl | hw
        · refine ⟨by simpa [List.isEmpty_iff] using hemp, ?_⟩
          intro c hc
          rw [List.mem_reverse] at hc
          exact ⟨Or.inr hc, hacc c hc⟩
        · obtain ⟨hne, hall⟩ := ih (by simp) hw
          refine ⟨hne, fun c hc => ?_⟩
          obtain ⟨hm, hns⟩ := hall c hc
          rcases hm with h | h
          · exact ⟨Or.inl (List.mem_cons_of_mem _ h), hns⟩
          · cases h
    · next hsp =>
      have hacc' : ∀ c ∈ a :: acc, isReSpace c = false := by
        intro c hc
        rcases List.mem_cons.mp hc with rfl | hc
        · simpa using hsp
        · exact hacc c hc
      obtain ⟨hne, hall⟩ := ih hacc' hw
      refine ⟨hne, fun c hc => ?_⟩
      obtain ⟨hm, hns⟩ := hall c hc
      rcases hm with h | h
      · exact ⟨Or.inl (List.mem_cons_of_mem _ h), hns⟩
      · rcases List.mem_cons.mp h with rfl | h
        · exact ⟨Or.inl (List.mem_cons_self _ _), hns⟩
        · exact ⟨Or.inr h, hns⟩

/-- Every field produced by `goFields` is non-empty and consists of
non-whitespace characters of the input. -/
lemma goFields_mem {l : List Char} {w : List Char} (hw : w ∈ goFields l) :
    w ≠ [] ∧ ∀ c ∈ w, c ∈ l ∧ isReSpace c = false := by
  obtain ⟨hne, hall⟩ := goFieldsAux_mem (by simp) hw
  refine ⟨hne, fun c hc => ?_⟩
  obtain ⟨hm, hns⟩ := hall c hc
  rcases hm with h | h
  · exact ⟨h, hns⟩
  · cases h

/-- Every character of every token is a lower-cased word character. -/
lemma tokenizeChars_mem {l w : List Char} (hw : w ∈ tokenizeChars l) :
    2 < w.length ∧ ∀ c ∈ w, isWordChar c = true ∧ c.isUpper = false := by
  rw [tokenizeChars, List.mem_filter] at hw
  obtain ⟨hg, hlen⟩ := hw
  refine ⟨by simpa using hlen, ?_⟩
  intro c hc
  obtain ⟨-, hall⟩ := goFields_mem hg
  obtain ⟨hmem, hnsp⟩ := hall c hc
  rw [replaceNonWord, List.mem_map] at hmem
  obtain ⟨c0, hc0, hceq⟩ := hmem
  rw [List.mem_map] at hc0
  obtain ⟨c1, -, hc1⟩ := hc0
  by_cases hword : (isWordChar c0 || isReSpace c0) = true
  · rw [if_pos hword] at hceq
    subst hceq
    rcases Bool.or_eq_true_iff.mp hword with h | h
    · subst hc1
      exact ⟨h, toLower_isUpper_false c1⟩
    · rw [h] at hnsp; cases hnsp
  · rw [if_neg hword] at hceq
    subst hceq
    cases hnsp

/-- Claim C4: for every input text, every token produced by `Tokenize` is
lower-case (contains no ASCII upper-case letter), consists only of
word characters (alphanumeric or underscore), and is strictly longer than
two characters; tokenizing the empty string yields the empty sequence. -/
theorem C4_tokenize_shape (text : String) :
    (∀ t ∈ Tokenize text, 2 < t.length ∧
      ∀ c ∈ t.data, isWordChar c = true ∧ c.isUpper = false) ∧
    Tokenize "" = [] := by
  constructor
  · intro t ht
    rw [Tokenize, List.mem_map] at ht
    obtain ⟨w, hw, hteq⟩ := ht
    obtain ⟨hlen, hall⟩ := tokenizeChars_mem hw
    subst hteq
    exact ⟨hlen, hall⟩
  · decide

/-! ## A concrete contract-satisfying sorter -/

/-- Insertion sort by non-increasing score: one concrete routine satisfying
`SortSliceContract`, used to instantiate the pipeline on concrete inputs.
(It is additionally stable, which `sort.Slice` itself does not promise.) -/
def sortByScoreDesc (F : Type) [LinearOrderedField F] :
    List (GoResult F) → List (GoResult F) :=
  List.insertionSort (fun a b => b.Score ≤ a.Score)

lemma sortByScoreDesc_contract (F : Type) [LinearOrderedField F] :
    SortSliceContract F (sortByScoreDesc F) := by
  intro l
  haveI : IsTotal (GoResult F) (fun a b => b.Score ≤ a.Score) :=
    ⟨fun a b => le_total b.Score a.Score⟩
  haveI : IsTrans (GoResult F) (fun a b => b.Score ≤ a.Score) :=
    ⟨fun _ _ _ hab hbc => le_trans hbc hab⟩
  exact ⟨List.perm_insertionSort _ l, List.sorted_insertionSort _ l⟩

/-! ## Claim C9: fitting an empty collection, scoring an unfit engine -/

/-- Claim C9: `Fit` on an empty document sequence leaves a usable engine
with `avgdl = 0`, and `Score` against a never-fitted engine or an engine
fitted on the empty collection returns the empty result sequence. -/
theorem C9_empty_fit_and_score (F : Type) [LinearOrderedField F]
    (flog : F → F) (k1 b : F) (q : String) :
    (BM25.fit flog (BM25.new F k1 b) []).avgdl = 0
    ∧ BM25.score (BM25.fit flog (BM25.new F k1 b) []) q = []
    ∧ BM25.score (BM25.new F k1 b) q = [] :=
  ⟨rfl, rfl, rfl⟩

/-! ## Claim C3: `DetectDomain` reads the `scores` map in Go's randomized
iteration order, so tied trigger counts make `Search` nondeterministic -/

/-- A record store with one record in each of the two tying domains. -/
def twoDomainFS : String → Option (List (List String)) := fun p =>
  if p = "dd/strategies.csv" then some [["Strategy Name"], ["Alpha"]]
  else if p = "dd/risk-management.csv" then some [["Risk Control"], ["Alpha"]]
  else none

/-- Claim C3 (failing input): on the query `"trading risk"` the domains
`strategy` and `risk` tie with one trigger keyword each, and the winner is
whichever the randomized map iteration of `DetectDomain` visits first: two
legitimate iteration orders (both permutations of the configured domain
set) produce different detected domains, hence `Search` results differing
in `Domain` (and record store file).  Repeated identical calls are
therefore not deterministic, contradicting the specified fixed priority
order. -/
theorem C3_detect_tie_depends_on_iteration_order :
    (["strategy", "indicator", "risk", "data", "anti-pattern"] : List String).Perm
      domainNames
    ∧ (["risk", "indicator", "strategy", "data", "anti-pattern"] : List String).Perm
      domainNames
    ∧ DetectDomain ["strategy", "indicator", "risk", "data", "anti-pattern"]
        "trading risk" = "strategy"
    ∧ DetectDomain ["risk", "indicator", "strategy", "data", "anti-pattern"]
        "trading risk" = "risk"
    ∧ Search ℚ id (sortByScoreDesc ℚ)
        ["strategy", "indicator", "risk", "data", "anti-pattern"]
        twoDomainFS "dd" "trading risk" "" 3
        = .ok ⟨"strategy", "trading risk", "strategies.csv", 0, []⟩
    ∧ Search ℚ id (sortByScoreDesc ℚ)
        ["risk", "indicator", "strategy", "data", "anti-pattern"]
        twoDomainFS "dd" "trading risk" "" 3
        = .ok ⟨"risk", "trading risk", "risk-management.csv", 0, []⟩ := by
  refine ⟨by decide, by decide, by decide, by decide, by rfl, by rfl⟩

/-! ## Claim C7: auto-detection with an unambiguous or absent signal -/

/-- The selection fold of `DetectDomain`'s second loop never moves off a
state whose score already dominates every remaining score. -/
lemma detectFold_stay (scores : String → Nat) :
    ∀ (l : List String) (a : String) (s : Nat), (∀ d ∈ l, scores d ≤ s) →
    l.foldl (fun best d => if scores d > best.2 then (d, scores d) else best) (a, s)
      = (a, s) := by
  intro l
  induction l with
  | nil => intro a s _; rfl
  | cons x rest ih =>
    intro a s hle
    have hx : ¬ scores x > s := not_lt.mpr (hle x (List.mem_cons_self _ _))
    simp only [List.foldl_cons, if_neg hx]
    exact ih a s (fun d hd => hle d (List.mem_cons_of_mem _ hd))

/-- If every score in the list is zero the fold never leaves its start. -/
lemma detectFold_zero (scores : String → Nat) (l : List String) (a : String)
    (hz : ∀ d ∈ l, scores d = 0) :
    l.foldl (fun best d => if scores d > best.2 then (d, scores d) else best) (a, 0)
      = (a, 0) :=
  detectFold_stay scores l a 0 (fun d hd => le_of_eq (hz d hd))

/-- If exactly one listed domain has a positive score, the fold ends on it. -/
lemma detectFold_unique (scores : String → Nat) (l : List String) (A : String)
    (hA : A ∈ l) (hpos : 0 < scores A)
    (hz : ∀ d ∈ l, d ≠ A → scores d = 0) :
    l.foldl (fun best d => if scores d > best.2 then (d, scores d) else best)
      ("strategy", 0) = (A, scores A) := by
  induction l with
  | nil => cases hA
  | cons x rest ih =>
    by_cases hxA : x = A
    · subst hxA
      simp only [List.foldl_cons, if_pos (show scores x > 0 from hpos)]
      refine detectFold_stay scores rest x (scores x) ?_
      intro d hd
      by_cases hdx : d = x
      · exact le_of_eq (congrArg scores hdx)
      · exact le_of_lt (lt_of_le_of_lt
          (le_of_eq (hz d (List.mem_cons_of_mem _ hd) hdx)) hpos)
    · have hA' : A ∈ rest := by
        rcases List.mem_cons.mp hA with h | h
        · exact absurd h.symm hxA
        · exact h
      have hx0 : scores x = 0 := hz x (List.mem_cons_self _ _) hxA
      simp only [List.foldl_cons, hx0, if_neg (by omega : ¬ (0 : Nat) > 0)]
      exact ih hA' (fun d hd hdA => hz d (List.mem_cons_of_mem _ hd) hdA)

/-- Claim C7: with auto-detection (empty explicit domain), a query whose
lower-cased text contains some trigger keyword of domain `A` and no
trigger keyword of any other configured domain resolves to `A`, for every
map iteration order; a query containing no trigger keyword of any domain
resolves to the fallback domain `"strategy"`. -/
theorem C7_auto_detection (order : List String) (query A : String)
    (hperm : order.Perm domainNames) :
    ((A ∈ domainNames) →
      (∃ kw ∈ DomainKeywords A,
        goContains (goToLower query).toList kw.toList = true) →
      (∀ B ∈ domainNames, B ≠ A → ∀ kw ∈ DomainKeywords B,
        goContains (goToLower query).toList kw.toList = false) →
      DetectDomain order query = A)
    ∧ ((∀ B ∈ domainNames, ∀ kw ∈ DomainKeywords B,
        goContains (goToLower query).toList kw.toList = false) →
      DetectDomain order query = "strategy") := by
  constructor
  · intro hAmem hAkw hother
    have hApos : 0 < keywordScore (goToLower query) A := by
      rw [keywordScore, List.countP_pos_iff]
      obtain ⟨kw, hkwmem, hkw⟩ := hAkw
      exact ⟨kw, hkwmem, hkw⟩
    have hz : ∀ d ∈ order, d ≠ A → keywordScore (goToLower query) d = 0 := by
      intro d hd hdA
      rw [keywordScore, List.countP_eq_zero]
      intro kw hkw
      simp only [Bool.not_eq_true]
      exact hother d (hperm.mem_iff.mp hd) hdA kw hkw
    have hAin : A ∈ order := hperm.mem_iff.mpr hAmem
    have hbest : detectBest order (goToLower query) = (A, keywordScore (goToLower query) A) :=
      detectFold_unique (keywordScore (goToLower query)) order A hAin hApos hz
    rw [DetectDomain, hbest]
    have hne : ((A, keywordScore (goToLower query) A) : String × Nat).2 ≠ 0 :=
      Nat.pos_iff_ne_zero.mp hApos
    rw [if_neg hne]
  · intro hnone
    have hz : ∀ d ∈ order, keywordScore (goToLower query) d = 0 := by
      intro d hd
      by_cases hmem : d ∈ domainNames
      · rw [keywordScore, List.countP_eq_zero]
        intro kw hkw
        simp only [Bool.not_eq_true]
        exact hnone d hmem kw hkw
      · exact absurd (hperm.mem_iff.mp hd) hmem
    have hbest : detectBest order (goToLower query) = ("strategy", 0) :=
      detectFold_zero (keywordScore (goToLower query)) order "strategy" hz
    rw [DetectDomain, hbest]
    rfl

/-- Witness for C7 at a concrete input: `"kalman"` triggers only the
`strategy` domain and resolves there; `"zzz"` triggers nothing and falls
back to `strategy`. -/
theorem C7_auto_detection_witness :
    DetectDomain domainNames "kalman" = "strategy"
    ∧ DetectDomain domainNames "zzz" = "strategy" :=
  ⟨(C7_auto_detection domainNames "kalman" "strategy" (by decide)).1
      (by decide) (by decide) (by decide),
    (C7_auto_detection domainNames "zzz" "strategy" (by decide)).2 (by decide)⟩

/-! ## Claim C8: a record store with fewer than two rows aborts the search -/

/-- `loadCSV` on a readable file with fewer than two parsed rows fails with
the `CSV file too short` error. -/
lemma loadCSV_short {fs : String → Option (List (List String))} {path : String}
    {rows : List (List String)} (hfs : fs path = some rows)
    (hrows : rows.length < 2) :
    loadCSV fs path = .error .sourceMalformed := by
  rw [loadCSV, hfs]
  simp only [if_pos hrows]

/-- Claim C8: whenever the resolved domain's record store file parses to
fewer than two rows (no header plus at least one data row), `Search` fails
with the malformed-source error and returns no partial `Result`. -/
theorem C8_malformed_store_aborts (F : Type) [LinearOrderedField F]
    (flog : F → F) (sorter : List (GoResult F) → List (GoResult F))
    (order : List String) (fs : String → Option (List (List String)))
    (dataDir query domain : String) (maxResults : Int)
    (config : Config) (rows : List (List String))
    (hcfg : DomainConfigs (resolvedDomain order query domain) = some config)
    (hfs : fs (joinPath dataDir config.file) = some rows)
    (hrows : rows.length < 2) :
    Search F flog sorter order fs dataDir query domain maxResults
      = .error .sourceMalformed := by
  rw [Search]
  simp only [hcfg, loadCSV_short hfs hrows]

/-- A record store whose strategies file holds only a header row. -/
def shortStoreFS : String → Option (List (List String)) := fun p =>
  if p = "dd/strategies.csv" then some [["Strategy Name"]] else none

/-- Witness for C8 at a concrete input: searching the header-only store
aborts with the malformed-source error. -/
theorem C8_malformed_store_aborts_witness :
    Search ℚ id (sortByScoreDesc ℚ) domainNames shortStoreFS
      "dd" "velocity" "strategy" 3 = .error .sourceMalformed :=
  C8_malformed_store_aborts ℚ id (sortByScoreDesc ℚ) domainNames shortStoreFS
    "dd" "velocity" "strategy" 3
    ⟨"strategies.csv",
     ["Strategy Name", "Category", "Keywords", "Best For", "Data Requirements"],
     ["Strategy Name", "Category", "Keywords", "Data Requirements", "Time Horizon",
      "Best For", "Complexity", "Key Parameters", "Performance Characteristics",
      "Market Conditions", "Capital Requirements", "Avoid For"]⟩
    [["Strategy Name"]] (by decide) (by decide) (by decide)

/-! ## Document-frequency characterization -/

/-- The number of synthetic documents whose token sequence contains `w`. -/
def dfCount (docs : List String) (w : String) : Nat :=
  (docs.map Tokenize).countP (fun d => decide (w ∈ d))

lemma addDocFreqs_go_apply (doc : List String) :
    ∀ (seen : List String) (df : String → Nat) (w : String),
    addDocFreqs.go doc seen df w =
      df w + (if w ∈ doc ∧ w ∉ seen then 1 else 0) := by
  induction doc with
  | nil =>
    intro seen df w
    simp [addDocFreqs.go]
  | cons w0 rest ih =>
    intro seen df w
    rw [addDocFreqs.go]
    split
    · next hw0 =>
      rw [ih]
      by_cases hww0 : w = w0
      · subst hww0
        simp [hw0]
      · simp only [List.mem_cons]
        congr 1
        by_cases hmem : w ∈ rest <;> by_cases hseen : w ∈ seen <;>
          simp [hmem, hseen, hww0]
    · next hw0 =>
      rw [ih]
      by_cases hww0 : w = w0
      · subst hww0
        simp [hw0]
      · simp only [if_neg hww0, List.mem_cons]
        congr 1
        by_cases hmem : w ∈ rest <;> by_cases hseen : w ∈ seen <;>
          simp [hmem, hseen, hww0]

lemma addDocFreqs_apply (df : String → Nat) (doc : List String) (w : String) :
    addDocFreqs df doc w = df w + (if w ∈ doc then 1 else 0) := by
  rw [addDocFreqs, addDocFreqs_go_apply]
  simp

/-- The document-frequency fold of `Fit` counts, for each term, the number
of documents containing it. -/
lemma foldl_addDocFreqs (corpus : List (List String)) :
    ∀ (df : String → Nat) (w : String),
    corpus.foldl addDocFreqs df w = df w + corpus.countP (fun d => decide (w ∈ d)) := by
  induction corpus with
  | nil => intro df w; simp
  | cons d rest ih =>
    intro df w
    rw [List.foldl_cons, ih, addDocFreqs_apply, List.countP_cons]
    by_cases hmem : w ∈ d <;> simp [hmem] <;> omega

/-- Canonical form of an engine fitted from `New` on a non-empty
collection. -/
lemma fit_new_eq (F : Type) [LinearOrderedField F] (flog : F → F)
    (k1 b : F) (docs : List String) (hne : docs.length ≠ 0) :
    BM25.fit flog (BM25.new F k1 b) docs =
      { k1 := k1, b := b,
        corpus := docs.map Tokenize,
        docLengths := (docs.map Tokenize).map List.length,
        avgdl := ((((docs.map Tokenize).map List.length).sum : Nat) : F) / ((docs.length : Nat) : F),
        idf := fun w =>
          if 0 < dfCount docs w then some (idfValue F flog docs.length (dfCount docs w))
          else none,
        docFreqs := fun w => dfCount docs w,
        N := docs.length } := by
  have hdf : (docs.map Tokenize).foldl addDocFreqs (BM25.new F k1 b).docFreqs
      = fun w => dfCount docs w := by
    funext w
    rw [foldl_addDocFreqs]
    simp [BM25.new, dfCount]
  rw [BM25.fit]
  simp only [if_neg hne, hdf]
  rfl

/-! ## IDF numeric facts (real instance) -/

/-- The argument of the logarithm in `idfValue` is `> 1` whenever
`1 ≤ df ≤ N`, so the smoothed IDF is strictly positive. -/
lemma idfValue_pos (N df : Nat) (h1 : 1 ≤ df) (h2 : df ≤ N) :
    0 < idfValue ℝ Real.log N df := by
  rw [idfValue]
  apply Real.log_pos
  have hsub : ((N : ℝ) - (df : ℝ)) ≥ 0 := by
    have : (df : ℝ) ≤ (N : ℝ) := by exact_mod_cast h2
    linarith
  have hnum : (0 : ℝ) < (((N : Int) - (df : Int) : Int) : ℝ) + 1/2 := by
    push_cast
    linarith
  have hden : (0 : ℝ) < (df : ℝ) + 1/2 := by positivity
  have := div_pos hnum hden
  push_cast at this ⊢
  linarith

/-- For `N ≥ 2` the IDF of a term occurring in every document is strictly
below the IDF of a term occurring in exactly one. -/
lemma idfValue_all_lt_one (N : Nat) (hN : 2 ≤ N) :
    idfValue ℝ Real.log N N < idfValue ℝ Real.log N 1 := by
  rw [idfValue, idfValue]
  apply Real.log_lt_log
  · have hnum : (0 : ℝ) < (((N : Int) - (N : Int) : Int) : ℝ) + 1/2 := by
      push_cast; linarith
    have hden : (0 : ℝ) < (N : ℝ) + 1/2 := by positivity
    have := div_pos hnum hden
    linarith
  · have hNr : (2 : ℝ) ≤ (N : ℝ) := by exact_mod_cast hN
    have h1 : ((((N : Int) - (N : Int) : Int) : ℝ) + 1/2) / ((N : ℝ) + 1/2)
        ≤ (1/2) / (2 + 1/2) := by
      push_cast
      rw [sub_self, zero_add]
      apply div_le_div_of_nonneg_left (by norm_num) (by norm_num)
      linarith
    have h2 : (1 : ℝ) ≤ ((((N : Int) - (1 : Int) : Int) : ℝ) + 1/2) / ((1 : ℝ) + 1/2) := by
      push_cast
      rw [le_div_iff (by norm_num)]
      linarith
    push_cast at h1 h2 ⊢
    linarith

lemma dfCount_le_length (docs : List String) (w : String) :
    dfCount docs w ≤ docs.length := by
  rw [dfCount]
  calc (docs.map Tokenize).countP (fun d => decide (w ∈ d))
      ≤ (docs.map Tokenize).length := List.countP_le_length _
    _ = docs.length := List.length_map _ _

/-- Inversion for the fitted IDF map of a fresh engine: a present key has
a document frequency between 1 and N and carries exactly `idfValue`. -/
lemma fit_new_idf_inv (F : Type) [LinearOrderedField F] (flog : F → F)
    (k1 b : F) (docs : List String) {t : String} {v : F}
    (h : (BM25.fit flog (BM25.new F k1 b) docs).idf t = some v) :
    docs.length ≠ 0 ∧ 1 ≤ dfCount docs t ∧ dfCount docs t ≤ docs.length ∧
      v = idfValue F flog docs.length (dfCount docs t) := by
  by_cases hlen : docs.length = 0
  · rw [BM25.fit] at h
    simp only [if_pos hlen] at h
    cases h
  · rw [fit_new_eq F flog k1 b docs hlen] at h
    simp only at h
    split at h
    · next hpos =>
      cases h
      exact ⟨hlen, hpos, dfCount_le_length docs t, rfl⟩
    · cases h

/-- If some term has positive document frequency, the fitted average
document length is strictly positive. -/
lemma fit_new_avgdl_pos (F : Type) [LinearOrderedField F] (flog : F → F)
    (k1 b : F) (docs : List String) (t : String)
    (hpos : 0 < dfCount docs t) :
    0 < (BM25.fit flog (BM25.new F k1 b) docs).avgdl := by
  rw [dfCount, List.countP_pos_iff] at hpos
  obtain ⟨d, hd, ht⟩ := hpos
  have hlen : docs.length ≠ 0 := by
    intro h0
    rw [List.length_eq_zero] at h0
    subst h0
    cases hd
  rw [fit_new_eq F flog k1 b docs hlen]
  have hdne : 0 < d.length := by
    cases d with
    | nil => simp at ht
    | cons x xs => simp
  have hsum : 0 < ((docs.map Tokenize).map List.length).sum := by
    have hmem : d.length ∈ (docs.map Tokenize).map List.length :=
      List.mem_map_of_mem _ hd
    have := List.single_le_sum (l := (docs.map Tokenize).map List.length)
      (fun x _ => Nat.zero_le x) _ hmem
    omega
  have h1 : (0 : F) < (((docs.map Tokenize).map List.length).sum : F) :=
    by exact_mod_cast Nat.cast_pos.mpr hsum
  have h2 : (0 : F) < (docs.length : F) :=
    Nat.cast_pos.mpr (Nat.pos_of_ne_zero hlen)
  exact div_pos h1 h2

/-! ## Claim C5: the smoothed IDF formula, its positivity, and the
all-documents vs one-document comparison -/

/-- Claim C5, amended: after fitting a fresh engine on a non-empty
collection, every term present in the IDF map carries exactly
`ln((N - df + 0.5)/(df + 0.5) + 1)` and that value is strictly positive;
and — provided the collection has at least two documents — a term
occurring in every document has strictly lower IDF than a term occurring
in exactly one.  (For a one-document collection the comparison part fails:
see the counterexample.) -/
theorem C5_idf_formula_positivity_amended (k1 b : ℝ) (docs : List String)
    (hne : docs ≠ []) :
    (∀ t v, (BM25.fit Real.log (BM25.new ℝ k1 b) docs).idf t = some v →
        v = Real.log ((((docs.length : ℝ)
                - ((BM25.fit Real.log (BM25.new ℝ k1 b) docs).docFreqs t : ℝ)) + 1/2)
              / (((BM25.fit Real.log (BM25.new ℝ k1 b) docs).docFreqs t : ℝ) + 1/2) + 1)
          ∧ 0 < v)
    ∧ (2 ≤ docs.length →
        ∀ s u vs vu,
          (∀ d ∈ (BM25.fit Real.log (BM25.new ℝ k1 b) docs).corpus, s ∈ d) →
          dfCount docs u = 1 →
          (BM25.fit Real.log (BM25.new ℝ k1 b) docs).idf s = some vs →
          (BM25.fit Real.log (BM25.new ℝ k1 b) docs).idf u = some vu →
          vs < vu) := by
  have hlen : docs.length ≠ 0 := by
    intro h0; exact hne (List.length_eq_zero.mp h0)
  constructor
  · intro t v hv
    obtain ⟨-, h1, h2, hval⟩ := fit_new_idf_inv ℝ Real.log k1 b docs hv
    have hdf : (BM25.fit Real.log (BM25.new ℝ k1 b) docs).docFreqs t = dfCount docs t := by
      rw [fit_new_eq ℝ Real.log k1 b docs hlen]
    constructor
    · rw [hval, hdf, idfValue]
      push_cast
      rfl
    · rw [hval]
      exact idfValue_pos docs.length (dfCount docs t) h1 h2
  · intro hN2 s u vs vu hs hu hvs hvu
    obtain ⟨-, -, -, hvals⟩ := fit_new_idf_inv ℝ Real.log k1 b docs hvs
    obtain ⟨-, -, -, hvalu⟩ := fit_new_idf_inv ℝ Real.log k1 b docs hvu
    have hcorp : (BM25.fit Real.log (BM25.new ℝ k1 b) docs).corpus = docs.map Tokenize := by
      rw [fit_new_eq ℝ Real.log k1 b docs hlen]
    rw [hcorp] at hs
    have hdfs : dfCount docs s = docs.length := by
      rw [dfCount]
      have : ((docs.map Tokenize).countP (fun d => decide (s ∈ d)))
          = (docs.map Tokenize).length := by
        rw [List.countP_eq_length]
        intro d hd
        exact decide_eq_true (hs d hd)
      rw [this, List.length_map]
    rw [hvals, hvalu, hdfs, hu]
    exact idfValue_all_lt_one docs.length hN2

/-- Counterexample to claim C5 as stated: on the one-document collection
`["foo"]` (non-empty, as the claim requires) the term `"foo"` occurs in
every document and also in exactly one document, yet its IDF is not
strictly lower than itself — the comparison clause of the claim fails for
`N = 1`. -/
theorem C5_single_document_counterexample :
    ((["foo"] : List String) ≠ [])
    ∧ (∀ d ∈ (BM25.fit Real.log (BM25.new ℝ (3/2) (3/4)) ["foo"]).corpus, "foo" ∈ d)
    ∧ dfCount ["foo"] "foo" = 1
    ∧ ¬ (((BM25.fit Real.log (BM25.new ℝ (3/2) (3/4)) ["foo"]).idf "foo").getD 0
          < ((BM25.fit Real.log (BM25.new ℝ (3/2) (3/4)) ["foo"]).idf "foo").getD 0) :=
  ⟨by decide, by decide, by decide, lt_irrefl _⟩

/-- Witness for the amended C5 at the concrete two-document collection
`["alpha", "beta"]` with the engine constants `Search` uses. -/
theorem C5_idf_formula_positivity_amended_witness :
    (∀ t v, (BM25.fit Real.log (BM25.new ℝ (3/2) (3/4)) ["alpha", "beta"]).idf t = some v →
        v = Real.log (((((["alpha", "beta"] : List String).length : ℝ)
                - ((BM25.fit Real.log (BM25.new ℝ (3/2) (3/4)) ["alpha", "beta"]).docFreqs t : ℝ)) + 1/2)
              / (((BM25.fit Real.log (BM25.new ℝ (3/2) (3/4)) ["alpha", "beta"]).docFreqs t : ℝ) + 1/2) + 1)
          ∧ 0 < v)
    ∧ (2 ≤ (["alpha", "beta"] : List String).length →
        ∀ s u vs vu,
          (∀ d ∈ (BM25.fit Real.log (BM25.new ℝ (3/2) (3/4)) ["alpha", "beta"]).corpus, s ∈ d) →
          dfCount ["alpha", "beta"] u = 1 →
          (BM25.fit Real.log (BM25.new ℝ (3/2) (3/4)) ["alpha", "beta"]).idf s = some vs →
          (BM25.fit Real.log (BM25.new ℝ (3/2) (3/4)) ["alpha", "beta"]).idf u = some vu →
          vs < vu) :=
  C5_idf_formula_positivity_amended (3/2) (3/4) ["alpha", "beta"] (by decide)

/-! ## Claims C6 and C10: per-token score facts (real instance) -/

lemma bm25Term_nonneg (idfv dl avg tf : ℝ) (hidf : 0 ≤ idfv) (hdl : 0 ≤ dl)
    (havg : 0 < avg) (htf : 0 ≤ tf) :
    0 ≤ bm25Term (3/2) (3/4) idfv dl avg tf := by
  rw [bm25Term]
  have hfrac : 0 ≤ dl / avg := div_nonneg hdl havg.le
  have h34 : (3:ℝ)/4 * dl / avg = 3/4 * (dl / avg) := by ring
  apply div_nonneg
  · have : 0 ≤ tf * (3/2 + 1) := by linarith
    exact mul_nonneg hidf this
  · rw [h34]
    linarith

/-- The token contribution with the constants `Search` uses is
non-decreasing in the raw term frequency. -/
lemma bm25Term_mono (idfv dl avg : ℝ) (hidf : 0 ≤ idfv) (hdl : 0 ≤ dl)
    (havg : 0 < avg) (tf1 tf2 : ℝ) (h0 : 0 ≤ tf1) (h12 : tf1 ≤ tf2) :
    bm25Term (3/2) (3/4) idfv dl avg tf1 ≤ bm25Term (3/2) (3/4) idfv dl avg tf2 := by
  rw [bm25Term, bm25Term]
  have hfrac : 0 ≤ dl / avg := div_nonneg hdl havg.le
  have hC : (0 : ℝ) < 3/2 * (1 - 3/4 + 3/4 * dl / avg) := by
    have h34 : (3:ℝ)/4 * dl / avg = 3/4 * (dl / avg) := by ring
    rw [h34]
    linarith
  have hden1 : (0 : ℝ) < tf1 + 3/2 * (1 - 3/4 + 3/4 * dl / avg) := by linarith
  have hden2 : (0 : ℝ) < tf2 + 3/2 * (1 - 3/4 + 3/4 * dl / avg) := by linarith
  rw [div_le_div_iff hden1 hden2]
  nlinarith [mul_le_mul_of_nonneg_left
    (mul_le_mul_of_nonneg_right h12 hC.le) hidf, hC, hidf]

lemma fit_new_k1_b (F : Type) [LinearOrderedField F] (flog : F → F)
    (k1 b : F) (docs : List String) :
    (BM25.fit flog (BM25.new F k1 b) docs).k1 = k1
    ∧ (BM25.fit flog (BM25.new F k1 b) docs).b = b := by
  by_cases hlen : docs.length = 0
  · rw [BM25.fit]
    simp only [if_pos hlen]
    exact ⟨rfl, rfl⟩
  · rw [fit_new_eq F flog k1 b docs hlen]
    exact ⟨rfl, rfl⟩

/-- The token loop of `Score` keeps a non-negative accumulator when every
fitted IDF is non-negative and `avgdl` is positive whenever a token is
found. -/
lemma scoreFold_nonneg (bm : BM25 ℝ) (doc : List String) (docLen : ℝ)
    (hk1 : bm.k1 = 3/2) (hb : bm.b = 3/4) (hdl : 0 ≤ docLen)
    (hgood : ∀ t v, bm.idf t = some v → 0 ≤ v ∧ 0 < bm.avgdl) :
    ∀ (tokens : List String) (acc : ℝ), 0 ≤ acc →
    0 ≤ tokens.foldl (scoreStep bm doc docLen) acc := by
  intro tokens
  induction tokens with
  | nil => intro acc hacc; simpa using hacc
  | cons t ts ih =>
    intro acc hacc
    rw [List.foldl_cons]
    rcases h : bm.idf t with - | v
    · rw [scoreStep, h]
      exact ih acc hacc
    · rw [scoreStep, h]
      obtain ⟨hv, havg⟩ := hgood t v h
      refine ih _ (add_nonneg hacc ?_)
      rw [hk1, hb]
      exact bm25Term_nonneg v docLen bm.avgdl _ hv hdl havg (Nat.cast_nonneg _)

/-- With an empty IDF map the token loop never moves the accumulator. -/
lemma scoreFold_none (bm : BM25 ℝ) (doc : List String) (docLen : ℝ)
    (hnone : ∀ t, bm.idf t = none) :
    ∀ (tokens : List String) (acc : ℝ),
    tokens.foldl (scoreStep bm doc docLen) acc = acc := by
  intro tokens
  induction tokens with
  | nil => intro acc; rfl
  | cons t ts ih =>
    intro acc
    rw [List.foldl_cons, scoreStep, hnone t]
    exact ih acc

/-- Claim C6: for a fixed fitted index and a query token present in the
fitted vocabulary (IDF map), the token's `bm25Term` contribution with the
engine constants `k1 = 1.5`, `b = 0.75`, the fitted `avgdl`, and a fixed
document length is non-decreasing as the raw term frequency grows. -/
theorem C6_score_contribution_tf_monotone (docs : List String) (t : String)
    (v : ℝ) (dl tf1 tf2 : Nat)
    (hidf : (BM25.fit Real.log (BM25.new ℝ (3/2) (3/4)) docs).idf t = some v)
    (h12 : tf1 ≤ tf2) :
    bm25Term (3/2) (3/4) v (dl : ℝ)
        (BM25.fit Real.log (BM25.new ℝ (3/2) (3/4)) docs).avgdl (tf1 : ℝ)
      ≤ bm25Term (3/2) (3/4) v (dl : ℝ)
        (BM25.fit Real.log (BM25.new ℝ (3/2) (3/4)) docs).avgdl (tf2 : ℝ) := by
  obtain ⟨hlen, h1, h2, hval⟩ := fit_new_idf_inv ℝ Real.log (3/2) (3/4) docs hidf
  have hv : 0 < v := by
    rw [hval]; exact idfValue_pos docs.length (dfCount docs t) h1 h2
  have havg : 0 < (BM25.fit Real.log (BM25.new ℝ (3/2) (3/4)) docs).avgdl :=
    fit_new_avgdl_pos ℝ Real.log (3/2) (3/4) docs t (by omega)
  exact bm25Term_mono v (dl : ℝ) _ hv.le (Nat.cast_nonneg dl) havg
    (tf1 : ℝ) (tf2 : ℝ) (Nat.cast_nonneg tf1) (by exact_mod_cast h12)

/-- Witness for C6: on the one-document collection `["alpha"]` the
vocabulary token `"alpha"` has a non-decreasing contribution from raw
frequency 2 to 5 at document length 1. -/
theorem C6_score_contribution_tf_monotone_witness :
    bm25Term (3/2) (3/4) (idfValue ℝ Real.log 1 1) ((1 : Nat) : ℝ)
        (BM25.fit Real.log (BM25.new ℝ (3/2) (3/4)) ["alpha"]).avgdl ((2 : Nat) : ℝ)
      ≤ bm25Term (3/2) (3/4) (idfValue ℝ Real.log 1 1) ((1 : Nat) : ℝ)
        (BM25.fit Real.log (BM25.new ℝ (3/2) (3/4)) ["alpha"]).avgdl ((5 : Nat) : ℝ) :=
  C6_score_contribution_tf_monotone ["alpha"] "alpha" (idfValue ℝ Real.log 1 1)
    1 2 5 rfl (by decide)

/-- Claim C10: the division `docLen/avgdl` is reached only for query
tokens present in the fitted IDF map, and whenever any token is present
the fitted `avgdl` is strictly positive, so the division never divides by
zero; every score `Score` produces is non-negative; and when every fitted
document tokenizes to the empty sequence the IDF map is empty and every
score is exactly zero (the division is never reached). -/
theorem C10_no_zero_division_and_nonneg_scores (docs : List String) (q : String) :
    (∀ t v, (BM25.fit Real.log (BM25.new ℝ (3/2) (3/4)) docs).idf t = some v →
        0 < (BM25.fit Real.log (BM25.new ℝ (3/2) (3/4)) docs).avgdl)
    ∧ (∀ r ∈ BM25.score (BM25.fit Real.log (BM25.new ℝ (3/2) (3/4)) docs) q,
        0 ≤ r.Score)
    ∧ ((∀ d ∈ docs, Tokenize d = []) →
        (∀ t, (BM25.fit Real.log (BM25.new ℝ (3/2) (3/4)) docs).idf t = none)
        ∧ ∀ r ∈ BM25.score (BM25.fit Real.log (BM25.new ℝ (3/2) (3/4)) docs) q,
            r.Score = 0) := by
  have havgdl : ∀ t v, (BM25.fit Real.log (BM25.new ℝ (3/2) (3/4)) docs).idf t = some v →
      0 < (BM25.fit Real.log (BM25.new ℝ (3/2) (3/4)) docs).avgdl := by
    intro t v hv
    obtain ⟨hlen, h1, -, -⟩ := fit_new_idf_inv ℝ Real.log (3/2) (3/4) docs hv
    exact fit_new_avgdl_pos ℝ Real.log (3/2) (3/4) docs t (by omega)
  refine ⟨havgdl, ?_, ?_⟩
  · intro r hr
    rw [BM25.score] at hr
    simp only [List.mem_map] at hr
    obtain ⟨p, hp, rfl⟩ := hr
    have hgood : ∀ t v, (BM25.fit Real.log (BM25.new ℝ (3/2) (3/4)) docs).idf t = some v →
        0 ≤ v ∧ 0 < (BM25.fit Real.log (BM25.new ℝ (3/2) (3/4)) docs).avgdl := by
      intro t v hv
      obtain ⟨hlen, h1, h2, hval⟩ := fit_new_idf_inv ℝ Real.log (3/2) (3/4) docs hv
      refine ⟨?_, havgdl t v hv⟩
      rw [hval]
      exact (idfValue_pos docs.length (dfCount docs t) h1 h2).le
    obtain ⟨hk1, hb⟩ := fit_new_k1_b ℝ Real.log (3/2) (3/4) docs
    exact scoreFold_nonneg _ p.2
      (((BM25.fit Real.log (BM25.new ℝ (3/2) (3/4)) docs).docLengths.getD p.1 0 : Nat) : ℝ)
      hk1 hb (Nat.cast_nonneg _) hgood (Tokenize q) 0 le_rfl
  · intro hempty
    have hnone : ∀ t, (BM25.fit Real.log (BM25.new ℝ (3/2) (3/4)) docs).idf t = none := by
      intro t
      by_cases hlen : docs.length = 0
      · rw [BM25.fit]
        simp only [if_pos hlen]
        rfl
      · rw [fit_new_eq ℝ Real.log (3/2) (3/4) docs hlen]
        simp only []
        have hdf : dfCount docs t = 0 := by
          rw [dfCount, List.countP_eq_zero]
          intro d hd
          rw [List.mem_map] at hd
          obtain ⟨s, hs, rfl⟩ := hd
          rw [hempty s hs]
          simp
        rw [hdf]
        simp
    refine ⟨hnone, ?_⟩
    intro r hr
    rw [BM25.score] at hr
    simp only [List.mem_map] at hr
    obtain ⟨p, hp, rfl⟩ := hr
    exact scoreFold_none _ p.2
      (((BM25.fit Real.log (BM25.new ℝ (3/2) (3/4)) docs).docLengths.getD p.1 0 : Nat) : ℝ)
      hnone (Tokenize q) 0


/-! ## Claim C1: the exclusion invariant of `Search` -/

lemma survivors_nonpos {F : Type} [LinearOrderedField F] {m : Int}
    (hm : m ≤ 0) (l : List (GoResult F)) (cnt : Nat) :
    survivors m l cnt = [] := by
  cases l with
  | nil => rfl
  | cons r rest =>
    rw [survivors]
    split
    · rfl
    · rw [if_pos (by omega : (cnt : Int) ≥ m)]

lemma survivors_mem_pos {F : Type} [LinearOrderedField F] {m : Int} :
    ∀ {l : List (GoResult F)} {cnt : Nat} {r : GoResult F},
    r ∈ survivors m l cnt → 0 < r.Score := by
  intro l
  induction l with
  | nil => intro cnt r hr; cases hr
  | cons x rest ih =>
    intro cnt r hr
    rw [survivors] at hr
    split at hr
    · cases hr
    · split at hr
      · cases hr
      · next hx _ =>
        rcases List.mem_cons.mp hr with rfl | hr
        · exact lt_of_not_le hx
        · exact ih hr

lemma survivors_sublist {F : Type} [LinearOrderedField F] (m : Int) :
    ∀ (l : List (GoResult F)) (cnt : Nat), List.Sublist (survivors m l cnt) l := by
  intro l
  induction l with
  | nil => intro cnt; exact List.Sublist.refl _
  | cons x rest ih =>
    intro cnt
    rw [survivors]
    split
    · exact List.nil_sublist _
    · split
      · exact List.nil_sublist _
      · exact List.Sublist.cons₂ x (ih (cnt + 1))

lemma survivors_length {F : Type} [LinearOrderedField F] (m : Int) :
    ∀ (l : List (GoResult F)) (cnt : Nat),
    (survivors m l cnt).length ≤ (m - cnt).toNat := by
  intro l
  induction l with
  | nil => intro cnt; simp [survivors]
  | cons x rest ih =>
    intro cnt
    rw [survivors]
    split
    · simp
    · split
      · simp
      · next _ hcnt =>
        have := ih (cnt + 1)
        simp only [List.length_cons]
        omega

lemma survivors_all_zero {F : Type} [LinearOrderedField F] {m : Int}
    {l : List (GoResult F)} (hz : ∀ r ∈ l, r.Score = 0) (cnt : Nat) :
    survivors m l cnt = [] := by
  cases l with
  | nil => rfl
  | cons r rest =>
    rw [survivors]
    rw [if_pos (le_of_eq (hz r (List.mem_cons_self _ _)))]

lemma scoreFoldF_none {F : Type} [LinearOrderedField F] (bm : BM25 F)
    (doc : List String) (docLen : F) :
    ∀ (tokens : List String), (∀ t ∈ tokens, bm.idf t = none) →
    ∀ acc, tokens.foldl (scoreStep bm doc docLen) acc = acc := by
  intro tokens
  induction tokens with
  | nil => intro _ acc; rfl
  | cons t ts ih =>
    intro hn acc
    rw [List.foldl_cons, scoreStep, hn t (List.mem_cons_self _ _)]
    exact ih (fun s hs => hn s (List.mem_cons_of_mem _ hs)) acc

lemma fit_new_idf_none (F : Type) [LinearOrderedField F] (flog : F → F)
    (k1 b : F) (docs : List String) (t : String) (hdf : dfCount docs t = 0) :
    (BM25.fit flog (BM25.new F k1 b) docs).idf t = none := by
  by_cases hlen : docs.length = 0
  · rw [BM25.fit]
    simp only [if_pos hlen]
    rfl
  · rw [fit_new_eq F flog k1 b docs hlen]
    simp only [hdf]
    rfl

lemma rankedFor_zero (F : Type) [LinearOrderedField F] (flog : F → F)
    (config : Config) (data : List Row) (query : String)
    (hnov : ∀ t ∈ Tokenize query, ∀ d ∈ docsOf config data, t ∉ Tokenize d) :
    ∀ r ∈ rankedFor F flog config data query, r.Score = 0 := by
  intro r hr
  rw [rankedFor, BM25.score] at hr
  simp only [List.mem_map] at hr
  obtain ⟨p, hp, rfl⟩ := hr
  refine scoreFoldF_none _ p.2 _ (Tokenize query) ?_ 0
  intro t ht
  refine fit_new_idf_none F flog (3/2) (3/4) (docsOf config data) t ?_
  rw [dfCount, List.countP_eq_zero]
  intro d hd
  rw [List.mem_map] at hd
  obtain ⟨s, hs, rfl⟩ := hd
  simpa using hnov t ht s hs

/-- Claim C1: whenever `Search` succeeds, no returned record has a
computed score `≤ 0` (and a query with no vocabulary overlap with the
corpus yields `Count 0` with an empty result sequence, not an error), the
number of returned records is at most `maxResults`, and at most the number
of positive-scoring documents.  Success entails `maxResults ≥ 0`: for a
negative `maxResults` the program panics at the `make` call (modelled by
`SearchErr.sliceCapPanic`), so the `maxResults` bound needs no side
condition. -/
theorem C1_search_exclusion (F : Type) [LinearOrderedField F]
    (flog : F → F) (sorter : List (GoResult F) → List (GoResult F))
    (order : List String) (fs : String → Option (List (List String)))
    (dataDir query domain : String) (maxResults : Int)
    (config : Config) (data : List Row) (res : SearchResult)
    (hsort : SortSliceContract F sorter)
    (hcfg : DomainConfigs (resolvedDomain order query domain) = some config)
    (hload : loadCSV fs (joinPath dataDir config.file) = .ok data)
    (hs : Search F flog sorter order fs dataDir query domain maxResults = .ok res) :
    res.Count = res.Results.length
    ∧ (res.Count : Int) ≤ maxResults
    ∧ res.Count ≤ ((rankedFor F flog config data query).filter
        (fun r => decide (0 < r.Score))).length
    ∧ (∀ rec ∈ res.Results, ∃ gr ∈ rankedFor F flog config data query,
        0 < gr.Score ∧ rec = projectRow config (data.getD gr.Index (fun _ => none)))
    ∧ ((∀ t ∈ Tokenize query, ∀ d ∈ docsOf config data, t ∉ Tokenize d) →
        res.Count = 0 ∧ res.Results = []) := by
  rw [Search] at hs
  simp only [hcfg, hload] at hs
  split at hs
  · exact absurd hs (by simp)
  next hm =>
  injection hs with hs
  subst hs
  obtain ⟨hperm, hsorted⟩ := hsort (rankedFor F flog config data query)
  constructor
  · rfl
  refine ⟨?_, ?_, ?_, ?_⟩
  · have hlen := survivors_length maxResults
      (sorter (rankedFor F flog config data query)) 0
    simp only [List.length_map]
    omega
  · have hsub : List.Sublist
        (survivors maxResults (sorter (rankedFor F flog config data query)) 0)
        (sorter (rankedFor F flog config data query)) :=
      survivors_sublist maxResults _ 0
    have hallpos : ∀ r ∈ survivors maxResults
        (sorter (rankedFor F flog config data query)) 0, 0 < r.Score :=
      fun r hr => survivors_mem_pos hr
    have hfe : (survivors maxResults (sorter (rankedFor F flog config data query)) 0).filter
        (fun r => decide (0 < r.Score))
        = survivors maxResults (sorter (rankedFor F flog config data query)) 0 := by
      rw [List.filter_eq_self]
      intro r hr
      exact decide_eq_true (hallpos r hr)
    have hflen : ((sorter (rankedFor F flog config data query)).filter
        (fun r => decide (0 < r.Score))).length
        = ((rankedFor F flog config data query).filter
        (fun r => decide (0 < r.Score))).length :=
      (hperm.filter _).length_eq
    have := (hsub.filter (fun r => decide (0 < r.Score))).length_le
    rw [hfe] at this
    simp only [List.length_map]
    omega
  · intro rec hrec
    simp only [List.mem_map] at hrec
    obtain ⟨gr, hgr, rfl⟩ := hrec
    refine ⟨gr, ?_, survivors_mem_pos hgr, rfl⟩
    exact hperm.subset ((survivors_sublist maxResults _ 0).subset hgr)
  · intro hnov
    have hz : ∀ r ∈ sorter (rankedFor F flog config data query), r.Score = 0 := by
      intro r hr
      exact rankedFor_zero F flog config data query hnov r (hperm.subset hr)
    rw [survivors_all_zero hz 0]
    exact ⟨rfl, rfl⟩

def oneRowFS : String → Option (List (List String)) := fun p =>
  if p = "dd/strategies.csv" then some [["Strategy Name"], ["Alpha"]] else none

/-- Witness for C1: a one-record store searched with a vocabulary-free
query succeeds with zero results; the theorem's conclusions hold at that
input. -/
theorem C1_search_exclusion_witness :
    ((SearchResult.mk "strategy" "zzz" "strategies.csv" 0 []).Count
        = (SearchResult.mk "strategy" "zzz" "strategies.csv" 0 []).Results.length)
    ∧ (((SearchResult.mk "strategy" "zzz" "strategies.csv" 0 []).Count : Nat) : Int) ≤ 3
    ∧ (SearchResult.mk "strategy" "zzz" "strategies.csv" 0 []).Count
        ≤ ((rankedFor ℚ id ⟨"strategies.csv",
            ["Strategy Name", "Category", "Keywords", "Best For", "Data Requirements"],
            ["Strategy Name", "Category", "Keywords", "Data Requirements", "Time Horizon",
             "Best For", "Complexity", "Key Parameters", "Performance Characteristics",
             "Market Conditions", "Capital Requirements", "Avoid For"]⟩
            [rowOf ["Strategy Name"] ["Alpha"]] "zzz").filter
            (fun r => decide (0 < r.Score))).length
    ∧ (∀ rec ∈ (SearchResult.mk "strategy" "zzz" "strategies.csv" 0 []).Results,
        ∃ gr ∈ rankedFor ℚ id ⟨"strategies.csv",
            ["Strategy Name", "Category", "Keywords", "Best For", "Data Requirements"],
            ["Strategy Name", "Category", "Keywords", "Data Requirements", "Time Horizon",
             "Best For", "Complexity", "Key Parameters", "Performance Characteristics",
             "Market Conditions", "Capital Requirements", "Avoid For"]⟩
            [rowOf ["Strategy Name"] ["Alpha"]] "zzz",
          0 < gr.Score ∧ rec = projectRow ⟨"strategies.csv",
            ["Strategy Name", "Category", "Keywords", "Best For", "Data Requirements"],
            ["Strategy Name", "Category", "Keywords", "Data Requirements", "Time Horizon",
             "Best For", "Complexity", "Key Parameters", "Performance Characteristics",
             "Market Conditions", "Capital Requirements", "Avoid For"]⟩
            ([rowOf ["Strategy Name"] ["Alpha"]].getD gr.Index (fun _ => none)))
    ∧ ((∀ t ∈ Tokenize "zzz", ∀ d ∈ docsOf ⟨"strategies.csv",
            ["Strategy Name", "Category", "Keywords", "Best For", "Data Requirements"],
            ["Strategy Name", "Category", "Keywords", "Data Requirements", "Time Horizon",
             "Best For", "Complexity", "Key Parameters", "Performance Characteristics",
             "Market Conditions", "Capital Requirements", "Avoid For"]⟩
            [rowOf ["Strategy Name"] ["Alpha"]], t ∉ Tokenize d) →
        (SearchResult.mk "strategy" "zzz" "strategies.csv" 0 []).Count = 0
        ∧ (SearchResult.mk "strategy" "zzz" "strategies.csv" 0 []).Results = []) :=
  C1_search_exclusion ℚ id (sortByScoreDesc ℚ) domainNames oneRowFS
    "dd" "zzz" "strategy" 3
    ⟨"strategies.csv",
     ["Strategy Name", "Category", "Keywords", "Best For", "Data Requirements"],
     ["Strategy Name", "Category", "Keywords", "Data Requirements", "Time Horizon",
      "Best For", "Complexity", "Key Parameters", "Performance Characteristics",
      "Market Conditions", "Capital Requirements", "Avoid For"]⟩
    [rowOf ["Strategy Name"] ["Alpha"]]
    (SearchResult.mk "strategy" "zzz" "strategies.csv" 0 [])
    (sortByScoreDesc_contract ℚ) rfl rfl rfl


/-! ## Claim C2: tie order among equal positive scores

`Search` sorts with `sort.Slice`, which Go documents as **not stable**: the
only guarantee is `SortSliceContract`.  The claim asserts that equal
positive scores appear in original record order; that holds for a stable
sorter (amended theorem below) but is not implied by the contract the code
relies on — the counterexample exhibits a contract-satisfying sorter and a
concrete store on which two records with equal positive scores come back
in reversed record order. -/

/-- Insertion placing the new element *before* every element of equal
score: still a descending sort, but anti-stable. -/
def antiInsert {F : Type} [LinearOrderedField F] (x : GoResult F) :
    List (GoResult F) → List (GoResult F)
  | [] => [x]
  | y :: l => if y.Score < x.Score then x :: y :: l else y :: antiInsert x l

def antiSorter (F : Type) [LinearOrderedField F] :
    List (GoResult F) → List (GoResult F)
  | [] => []
  | x :: l => antiInsert x (antiSorter F l)

lemma antiInsert_perm {F : Type} [LinearOrderedField F] (x : GoResult F) :
    ∀ l : List (GoResult F), (antiInsert x l).Perm (x :: l) := by
  intro l
  induction l with
  | nil => exact List.Perm.refl _
  | cons y rest ih =>
    rw [antiInsert]
    split
    · exact List.Perm.refl _
    · exact (ih.cons y).trans (List.Perm.swap x y rest)

lemma antiInsert_sorted {F : Type} [LinearOrderedField F] (x : GoResult F) :
    ∀ l : List (GoResult F), l.Pairwise (fun a b => b.Score ≤ a.Score) →
    (antiInsert x l).Pairwise (fun a b => b.Score ≤ a.Score) := by
  intro l
  induction l with
  | nil => intro _; simp [antiInsert]
  | cons y rest ih =>
    intro hl
    rw [List.pairwise_cons] at hl
    obtain ⟨hy, hrest⟩ := hl
    rw [antiInsert]
    split
    · next hlt =>
      rw [List.pairwise_cons]
      refine ⟨?_, List.pairwise_cons.mpr ⟨hy, hrest⟩⟩
      intro z hz
      rcases List.mem_cons.mp hz with rfl | hz
      · exact hlt.le
      · exact le_trans (hy z hz) hlt.le
    · next hge =>
      rw [List.pairwise_cons]
      refine ⟨?_, ih hrest⟩
      intro z hz
      have hz' := (antiInsert_perm x rest).mem_iff.mp hz
      rcases List.mem_cons.mp hz' with rfl | hz'
      · exact not_lt.mp hge
      · exact hy z hz'

lemma antiSorter_contract (F : Type) [LinearOrderedField F] :
    SortSliceContract F (antiSorter F) := by
  intro l
  induction l with
  | nil => exact ⟨List.Perm.refl _, List.Pairwise.nil⟩
  | cons x rest ih =>
    obtain ⟨hperm, hsorted⟩ := ih
    rw [antiSorter]
    constructor
    · exact (antiInsert_perm x (antiSorter F rest)).trans (hperm.cons x)
    · exact antiInsert_sorted x _ hsorted

def tieFS : String → Option (List (List String)) := fun p =>
  if p = "dd/strategies.csv" then
    some [["Strategy Name", "Time Horizon"], ["Alpha", "H1"], ["Alpha", "H2"]]
  else none

noncomputable def tieScore : ℝ :=
  0 + bm25Term (3/2) (3/4) (idfValue ℝ Real.log 2 2) ((1 : Nat) : ℝ)
    (((2 : Nat) : ℝ) / ((2 : Nat) : ℝ)) ((1 : Nat) : ℝ)

example : rankedFor ℝ Real.log
    ⟨"strategies.csv",
     ["Strategy Name", "Category", "Keywords", "Best For", "Data Requirements"],
     ["Strategy Name", "Category", "Keywords", "Data Requirements", "Time Horizon",
      "Best For", "Complexity", "Key Parameters", "Performance Characteristics",
      "Market Conditions", "Capital Requirements", "Avoid For"]⟩
    [rowOf ["Strategy Name", "Time Horizon"] ["Alpha", "H1"],
     rowOf ["Strategy Name", "Time Horizon"] ["Alpha", "H2"]] "alpha"
    = [⟨0, tieScore⟩, ⟨1, tieScore⟩] := by
  rfl

lemma tieScore_eq : tieScore = idfValue ℝ Real.log 2 2 := by
  rw [tieScore, bm25Term]
  push_cast
  norm_num

lemma tieScore_pos : 0 < tieScore := by
  rw [tieScore_eq]
  exact idfValue_pos 2 2 (by norm_num) (by norm_num)

lemma antiSorter_tie_eval :
    antiSorter ℝ [⟨0, tieScore⟩, ⟨1, tieScore⟩] = [⟨1, tieScore⟩, ⟨0, tieScore⟩] := by
  rw [antiSorter, antiSorter, antiSorter, antiInsert, antiInsert]
  rw [if_neg (lt_irrefl tieScore)]
  rfl

lemma survivors_tie_eval :
    survivors 3 ([⟨1, tieScore⟩, ⟨0, tieScore⟩] : List (GoResult ℝ)) 0
      = [⟨1, tieScore⟩, ⟨0, tieScore⟩] := by
  rw [survivors, if_neg (not_le.mpr tieScore_pos), if_neg (by decide)]
  rw [survivors, if_neg (not_le.mpr tieScore_pos), if_neg (by decide)]
  rfl

lemma search_tie_eval :
    Search ℝ Real.log (antiSorter ℝ) domainNames tieFS "dd" "alpha" "strategy" 3
      = .ok ⟨"strategy", "alpha", "strategies.csv", 2,
          [[("Strategy Name", "Alpha"), ("Time Horizon", "H2")],
           [("Strategy Name", "Alpha"), ("Time Horizon", "H1")]]⟩ := by
  rw [Search]
  simp only [show DomainConfigs (resolvedDomain domainNames "alpha" "strategy")
      = some ⟨"strategies.csv",
        ["Strategy Name", "Category", "Keywords", "Best For", "Data Requirements"],
        ["Strategy Name", "Category", "Keywords", "Data Requirements", "Time Horizon",
         "Best For", "Complexity", "Key Parameters", "Performance Characteristics",
         "Market Conditions", "Capital Requirements", "Avoid For"]⟩ from rfl,
    show loadCSV tieFS (joinPath "dd" "strategies.csv")
      = .ok [rowOf ["Strategy Name", "Time Horizon"] ["Alpha", "H1"],
             rowOf ["Strategy Name", "Time Horizon"] ["Alpha", "H2"]] from rfl,
    show rankedFor ℝ Real.log
      ⟨"strategies.csv",
       ["Strategy Name", "Category", "Keywords", "Best For", "Data Requirements"],
       ["Strategy Name", "Category", "Keywords", "Data Requirements", "Time Horizon",
        "Best For", "Complexity", "Key Parameters", "Performance Characteristics",
        "Market Conditions", "Capital Requirements", "Avoid For"]⟩
      [rowOf ["Strategy Name", "Time Horizon"] ["Alpha", "H1"],
       rowOf ["Strategy Name", "Time Horizon"] ["Alpha", "H2"]] "alpha"
      = [⟨0, tieScore⟩, ⟨1, tieScore⟩] from rfl,
    antiSorter_tie_eval, survivors_tie_eval]
  rfl

lemma orderedInsert_stable {F : Type} [LinearOrderedField F] (a : GoResult F) :
    ∀ l : List (GoResult F),
    l.Pairwise (fun x y => y.Score ≤ x.Score) →
    l.Pairwise (fun x y => x.Score = y.Score → x.Index < y.Index) →
    (∀ b ∈ l, a.Score = b.Score → a.Index < b.Index) →
    (List.orderedInsert (fun x y => y.Score ≤ x.Score) a l).Pairwise
      (fun x y => x.Score = y.Score → x.Index < y.Index) := by
  intro l
  induction l with
  | nil => intro _ _ _; simp
  | cons b l ih =>
    intro hsorted hQ hmem
    rw [List.pairwise_cons] at hsorted hQ
    obtain ⟨hbge, hsorted'⟩ := hsorted
    obtain ⟨hbQ, hQ'⟩ := hQ
    rw [List.orderedInsert]
    split
    · next hr =>
      rw [List.pairwise_cons]
      exact ⟨hmem, List.pairwise_cons.mpr ⟨hbQ, hQ'⟩⟩
    · next hr =>
      have halt : a.Score < b.Score := lt_of_not_le hr
      rw [List.pairwise_cons]
      constructor
      · intro z hz
        rcases (List.mem_orderedInsert (fun x y : GoResult F => y.Score ≤ x.Score)).mp hz with rfl | hz
        · intro heq
          exact absurd heq.symm (ne_of_lt halt)
        · exact hbQ z hz
      · exact ih hsorted' hQ'
          (fun b' hb' => hmem b' (List.mem_cons_of_mem _ hb'))

lemma insertionSort_stable {F : Type} [LinearOrderedField F] :
    ∀ l : List (GoResult F),
    l.Pairwise (fun x y => x.Score = y.Score → x.Index < y.Index) →
    (List.insertionSort (fun x y => y.Score ≤ x.Score) l).Pairwise
      (fun x y => x.Score = y.Score → x.Index < y.Index) := by
  haveI : IsTotal (GoResult F) (fun a b => b.Score ≤ a.Score) :=
    ⟨fun a b => le_total b.Score a.Score⟩
  haveI : IsTrans (GoResult F) (fun a b => b.Score ≤ a.Score) :=
    ⟨fun _ _ _ hab hbc => le_trans hbc hab⟩
  intro l
  induction l with
  | nil => intro _; simp
  | cons a t ih =>
    intro hQ
    rw [List.pairwise_cons] at hQ
    obtain ⟨haQ, hQ'⟩ := hQ
    rw [List.insertionSort]
    refine orderedInsert_stable a _ (List.sorted_insertionSort _ t) (ih hQ') ?_
    intro b hb
    exact haQ b ((List.perm_insertionSort _ t).mem_iff.mp hb)

lemma rankedFor_pairwise_index (F : Type) [LinearOrderedField F] (flog : F → F)
    (config : Config) (data : List Row) (query : String) :
    (rankedFor F flog config data query).Pairwise (fun a b => a.Index < b.Index) := by
  rw [rankedFor, BM25.score]
  refine List.Pairwise.map _ (fun p q h => h) ?_
  rw [List.pairwise_iff_getElem]
  intro i j hi hj hij
  simp only [List.getElem_enum]
  exact hij

theorem C2_stable_sort_tie_order_amended (F : Type) [LinearOrderedField F]
    (flog : F → F) (order : List String)
    (fs : String → Option (List (List String)))
    (dataDir query domain : String) (maxResults : Int)
    (config : Config) (data : List Row) (res : SearchResult)
    (hcfg : DomainConfigs (resolvedDomain order query domain) = some config)
    (hload : loadCSV fs (joinPath dataDir config.file) = .ok data)
    (hs : Search F flog (sortByScoreDesc F) order fs dataDir query domain maxResults
      = .ok res) :
    res.Results = (survivors maxResults
        (sortByScoreDesc F (rankedFor F flog config data query)) 0).map
        (fun r => projectRow config (data.getD r.Index (fun _ => none)))
    ∧ (survivors maxResults
        (sortByScoreDesc F (rankedFor F flog config data query)) 0).Pairwise
        (fun a b => a.Score = b.Score → a.Index < b.Index) := by
  rw [Search] at hs
  simp only [hcfg, hload] at hs
  split at hs
  · exact absurd hs (by simp)
  injection hs with hs
  subst hs
  constructor
  · rfl
  · refine List.Pairwise.sublist (survivors_sublist maxResults _ 0) ?_
    rw [sortByScoreDesc]
    refine insertionSort_stable _
      ((rankedFor_pairwise_index F flog config data query).imp ?_)
    intro a b h _
    exact h

/-- Counterexample to claim C2 as stated: `antiSorter` satisfies the
documented `sort.Slice` contract, the store holds two records whose
searchable fields are identical (both score `tieScore > 0` on the query
`"alpha"`), and the search returns the projection of record 1
(`Time Horizon = "H2"`) *before* that of record 0 (`"H1"`): ties among
equal positive scores are not guaranteed to follow original record
order. -/
theorem C2_unstable_sort_counterexample :
    SortSliceContract ℝ (antiSorter ℝ)
    ∧ rankedFor ℝ Real.log
        ⟨"strategies.csv",
         ["Strategy Name", "Category", "Keywords", "Best For", "Data Requirements"],
         ["Strategy Name", "Category", "Keywords", "Data Requirements", "Time Horizon",
          "Best For", "Complexity", "Key Parameters", "Performance Characteristics",
          "Market Conditions", "Capital Requirements", "Avoid For"]⟩
        [rowOf ["Strategy Name", "Time Horizon"] ["Alpha", "H1"],
         rowOf ["Strategy Name", "Time Horizon"] ["Alpha", "H2"]] "alpha"
        = [⟨0, tieScore⟩, ⟨1, tieScore⟩]
    ∧ 0 < tieScore
    ∧ Search ℝ Real.log (antiSorter ℝ) domainNames tieFS "dd" "alpha" "strategy" 3
        = .ok ⟨"strategy", "alpha", "strategies.csv", 2,
            [[("Strategy Name", "Alpha"), ("Time Horizon", "H2")],
             [("Strategy Name", "Alpha"), ("Time Horizon", "H1")]]⟩
    ∧ ([("Strategy Name", "Alpha"), ("Time Horizon", "H2")] : List (String × String))
        ≠ [("Strategy Name", "Alpha"), ("Time Horizon", "H1")] :=
  ⟨antiSorter_contract ℝ, rfl, tieScore_pos, search_tie_eval, by decide⟩

/-- Witness for the amended C2 at a concrete input (stable sorter, no
ties): the returned records are the projections of the kept ranking, in an
order where equal scores respect document order. -/
theorem C2_stable_sort_tie_order_amended_witness :
    (SearchResult.mk "strategy" "zzz" "strategies.csv" 0 []).Results
      = (survivors 3 (sortByScoreDesc ℚ (rankedFor ℚ id ⟨"strategies.csv",
          ["Strategy Name", "Category", "Keywords", "Best For", "Data Requirements"],
          ["Strategy Name", "Category", "Keywords", "Data Requirements", "Time Horizon",
           "Best For", "Complexity", "Key Parameters", "Performance Characteristics",
           "Market Conditions", "Capital Requirements", "Avoid For"]⟩
          [rowOf ["Strategy Name"] ["Alpha"]] "zzz")) 0).map
          (fun r => projectRow ⟨"strategies.csv",
            ["Strategy Name", "Category", "Keywords", "Best For", "Data Requirements"],
            ["Strategy Name", "Category", "Keywords", "Data Requirements", "Time Horizon",
             "Best For", "Complexity", "Key Parameters", "Performance Characteristics",
             "Market Conditions", "Capital Requirements", "Avoid For"]⟩
            ([rowOf ["Strategy Name"] ["Alpha"]].getD r.Index (fun _ => none)))
    ∧ (survivors 3 (sortByScoreDesc ℚ (rankedFor ℚ id ⟨"strategies.csv",
          ["Strategy Name", "Category", "Keywords", "Best For", "Data Requirements"],
          ["Strategy Name", "Category", "Keywords", "Data Requirements", "Time Horizon",
           "Best For", "Complexity", "Key Parameters", "Performance Characteristics",
           "Market Conditions", "Capital Requirements", "Avoid For"]⟩
          [rowOf ["Strategy Name"] ["Alpha"]] "zzz")) 0).Pairwise
          (fun a b => a.Score = b.Score → a.Index < b.Index) :=
  C2_stable_sort_tie_order_amended ℚ id domainNames oneRowFS "dd" "zzz" "strategy" 3
    ⟨"strategies.csv",
     ["Strategy Name", "Category", "Keywords", "Best For", "Data Requirements"],
     ["Strategy Name", "Category", "Keywords", "Data Requirements", "Time Horizon",
      "Best For", "Complexity", "Key Parameters", "Performance Characteristics",
      "Market Conditions", "Capital Requirements", "Avoid For"]⟩
    [rowOf ["Strategy Name"] ["Alpha"]]
    (SearchResult.mk "strategy" "zzz" "strategies.csv" 0 []) rfl rfl rfl
